import Mathlib

/-!
Verification of the service-worker cache controller in `sw.js`.

The development shallowly embeds the data model (the browser cache
storage, one named store per worker version, the asset manifest, the
network) and the three lifecycle handlers (install, activate, fetch),
and proves the documented properties about them.
-/

set_option maxRecDepth 10000

/-- A stored or network response.  `clone` models `Response.clone()`,
which produces an equivalent copy of the response. -/
structure Response where
  body : Nat
deriving DecidableEq

/-- Model of `Response.clone()`. -/
def Response.clone (r : Response) : Response := r

/-- The network: fetching a URL either yields a response or fails. -/
abbrev Network := String → Except Unit Response

/-- One named cache store: an association list from request URL to the
stored response (keys are request URLs, values are stored responses). -/
abbrev Store := List (String × Response)

/-- The browser cache storage: an association list from store name to
the store with that name. -/
abbrev CacheStorage := List (String × Store)

/-- The current version string naming the cache store (`staticCacheName`
in `sw.js`). -/
def staticCacheName : String := "static-cache-v2.1.0"

/-- The asset manifest precached at install time (`assets` in `sw.js`). -/
def assets : List String := [
  "/",
  "./index.html",
  "./assets/js/main.js",
  "./assets/css/styles.css",
  "./assets/img/perfil.jpg",
  "./assets/img/logo/maskable_icon_x1.png",
  "./assets/img/logo/maskable_icon_x3.png",
  "./assets/img/about.jpg",
  "./assets/img/projectmind.jpg",
  "https://fonts.googleapis.com/css2?family=Poppins:wght@400;500;600;700&display=swap"
]

/-- Model of `cache.match(request)`: look up the request URL in a store. -/
def storeLookup : Store → String → Option Response
  | [], _ => none
  | e :: es, url => if e.1 == url then some e.2 else storeLookup es url

/-- Model of `cache.put(request, response)`: overwrite the entry for the
URL if present, otherwise append a new entry. -/
def storePut : Store → String → Response → Store
  | [], url, r => [(url, r)]
  | e :: es, url, r => if e.1 == url then (url, r) :: es else e :: storePut es url r

/-- Look up a store by name in the cache storage. -/
def getStore : CacheStorage → String → Option Store
  | [], _ => none
  | e :: es, name => if e.1 == name then some e.2 else getStore es name

/-- Replace the store with the given name (or append it if absent). -/
def setStore : CacheStorage → String → Store → CacheStorage
  | [], name, st => [(name, st)]
  | e :: es, name, st => if e.1 == name then (name, st) :: es else e :: setStore es name st

/-- Model of `caches.open(name)`: return the storage with the named
store present, creating an empty one if it was absent. -/
def openStore (σ : CacheStorage) (name : String) : CacheStorage :=
  match getStore σ name with
  | some _ => σ
  | none => σ ++ [(name, [])]

/-- Model of `caches.keys()`: the list of existing store names. -/
def cachesKeys (σ : CacheStorage) : List String := σ.map Prod.fst

/-- Model of `caches.delete(name)`: remove the store with that name. -/
def cachesDelete (σ : CacheStorage) (name : String) : CacheStorage :=
  σ.filter (fun e => !(e.1 == name))

/-- Fetch every URL of a list from the network, failing as soon as any
single fetch fails. -/
def fetchAll (net : Network) : List String → Except Unit (List (String × Response))
  | [] => Except.ok []
  | url :: rest =>
    match net url with
    | Except.ok r =>
      match fetchAll net rest with
      | Except.ok prs => Except.ok ((url, r) :: prs)
      | Except.error e => Except.error e
    | Except.error e => Except.error e

/-- Write a list of URL/response pairs into a store, in order. -/
def putAll : Store → List (String × Response) → Store
  | st, [] => st
  | st, p :: ps => putAll (storePut st p.1 p.2) ps

/-- Model of `cache.addAll(urls)`: fetch every URL; if all fetches
succeed the responses are written into the store, and if any single
fetch fails the whole batch fails and nothing is written. -/
def addAll (net : Network) (st : Store) (urls : List String) : Except Unit Store :=
  match fetchAll net urls with
  | Except.ok prs => Except.ok (putAll st prs)
  | Except.error e => Except.error e

/-- Outcome of one install event: the result of the promise handed to
`evt.waitUntil`, the result of the `cache.addAll` promise, and the cache
storage after all started operations have settled. -/
structure InstallOutcome where
  waitUntil : Except Unit Unit
  addAllResult : Except Unit Unit
  state : CacheStorage

/-- The install handler of `sw.js`, with the store name and manifest as
parameters.  It opens the named store and starts `cache.addAll` on the
manifest.  The promise handed to `evt.waitUntil` is
`caches.open(name).then(cb)` where `cb` does not return the
`cache.addAll(assets)` promise (the arrow body discards it), so that
promise fulfills as soon as the open completes, whatever becomes of the
bulk-add; `waitUntil` is therefore `ok` in both branches while
`addAllResult` records the fate of the discarded `addAll` promise. -/
def installEventWith (name : String) (manifest : List String) (net : Network)
    (σ : CacheStorage) : InstallOutcome :=
  match addAll net ((getStore (openStore σ name) name).getD []) manifest with
  | Except.ok st2 => ⟨Except.ok (), Except.ok (), setStore (openStore σ name) name st2⟩
  | Except.error e => ⟨Except.ok (), Except.error e, openStore σ name⟩

/-- The install handler at the deployed store name and manifest. -/
def installEvent : Network → CacheStorage → InstallOutcome :=
  installEventWith staticCacheName assets

/-- The activate handler of `sw.js`, with the store name as a parameter:
list all store names, keep those different from the current name, and
delete each of them. -/
def activateEventWith (name : String) (σ : CacheStorage) : CacheStorage :=
  List.foldl cachesDelete σ ((cachesKeys σ).filter (fun k => !(k == name)))

/-- The activate handler at the deployed store name. -/
def activateEvent : CacheStorage → CacheStorage := activateEventWith staticCacheName

/-- Boolean test that the first list occurs at the start of the second. -/
def listStarts : List Char → List Char → Bool
  | [], _ => true
  | _ :: _, [] => false
  | c :: cs, d :: ds => (c == d) && listStarts cs ds

/-- Boolean test that the first list occurs contiguously anywhere inside
the second. -/
def listHasSub (sub : List Char) : List Char → Bool
  | [] => listStarts sub []
  | c :: rest => listStarts sub (c :: rest) || listHasSub sub rest

/-- The string the fetch handler of `sw.js` tests request URLs against. -/
def needle : String := "mahesh-puri.github.io/resume/"

/-- The scheme part of the deployed site's origin. -/
def httpsPre : String := "https://"

/-- The deployed site's origin and path, as a URL start. -/
def sitePre : String := "https://mahesh-puri.github.io/resume/"

/-- Model of JS `String.prototype.includes`: substring containment. -/
def urlIncludes (url sub : String) : Bool := listHasSub sub.data url.data

/-- A URL matches the deployed site's origin/path exactly when it starts
with `sitePre`. -/
def urlStartsWithSite (url : String) : Bool := listStarts sitePre.data url.data

/-- Outcome of one fetch event: which branch of the handler ran, the
response delivered to the page (or its failure), the cache storage after
the event, and how many network fetches the handler performed. -/
structure FetchOutcome where
  cacheBranch : Bool
  response : Except Unit Response
  state : CacheStorage
  networkCalls : Nat

/-- The fetch handler of `sw.js`.  If the request URL contains `needle`
it opens the named store, serves a cache hit directly, and on a miss
fetches from the network, stores a clone and returns the network
response (a failed fetch propagates and stores nothing).  Any other
request goes straight to the network. -/
def fetchEvent (net : Network) (σ : CacheStorage) (url : String) : FetchOutcome :=
  if urlIncludes url needle then
    match storeLookup ((getStore (openStore σ staticCacheName) staticCacheName).getD []) url with
    | some r => ⟨true, Except.ok r, openStore σ staticCacheName, 0⟩
    | none =>
      match net url with
      | Except.ok r => ⟨true, Except.ok r,
          setStore (openStore σ staticCacheName) staticCacheName
            (storePut ((getStore (openStore σ staticCacheName) staticCacheName).getD []) url r.clone), 1⟩
      | Except.error e => ⟨true, Except.error e, openStore σ staticCacheName, 1⟩
  else
    match net url with
    | Except.ok r => ⟨false, Except.ok r, σ, 1⟩
    | Except.error e => ⟨false, Except.error e, σ, 1⟩

/-- Membership of a name in a list of names, as a boolean. -/
def nameIn (k : String) : List String → Bool
  | [] => false
  | k2 :: ks => (k == k2) || nameIn k ks

/-- A fixed concrete response used in concrete scenarios. -/
def r0 : Response := ⟨0⟩

/-- A network on which every fetch succeeds. -/
def netOk : Network := fun _ => Except.ok r0

/-- A network on which every fetch fails. -/
def netFail : Network := fun _ => Except.error ()

/-- A cross-origin URL that embeds `needle` in a query parameter. -/
def evilUrl : String := "https://evil.example/?u=mahesh-puri.github.io/resume/"

/-- A same-site URL, starting with the deployed origin and path. -/
def urlHome : String := "https://mahesh-puri.github.io/resume/index.html"

/-- A cross-origin URL not containing `needle`. -/
def otherUrl : String := "https://fonts.googleapis.com/css2?family=Poppins"

/-- Another cross-origin URL not containing `needle`. -/
def otherUrl2 : String := "https://example.org/data.json"

/-- A cache storage whose current-version store holds `urlHome`. -/
def cacheW : CacheStorage := [(staticCacheName, [(urlHome, r0)])]

/-- A cache storage holding one stale store and the current one. -/
def cacheOld : CacheStorage := [("static-cache-v1", []), (staticCacheName, [(urlHome, r0)])]

/-- The version name of the first scenario generation. -/
def v1 : String := "v1"

/-- The version name of the second scenario generation. -/
def v2 : String := "v2"

/-- The two-entry manifest of the scenario in the spec. -/
def manifestW : List String := ["/", "a.js"]

/-- The root URL of the scenario manifest. -/
def rootUrl : String := "/"

/-- The storage produced by installing generation `v1` of the scenario. -/
def stateV1 : CacheStorage := (installEventWith v1 manifestW netOk []).state

/-! ### Store lemmas -/

/-- Looking up a URL right after putting it yields the stored response. -/
theorem storeLookup_storePut_self (st : Store) (u : String) (r : Response) :
    storeLookup (storePut st u r) u = some r := by
  induction st with
  | nil => simp [storePut, storeLookup]
  | cons e es ih =>
    by_cases hk : e.1 == u
    · simp [storePut, storeLookup, hk]
    · simp only [Bool.not_eq_true] at hk
      simp [storePut, storeLookup, hk, ih]

/-- A put never removes an existing entry of the store. -/
theorem storeLookup_isSome_storePut (st : Store) (u : String) (r : Response) (v : String)
    (h : (storeLookup st v).isSome = true) :
    (storeLookup (storePut st u r) v).isSome = true := by
  induction st with
  | nil => simp [storeLookup] at h
  | cons e es ih =>
    by_cases hk : e.1 == u
    · have hku : e.1 = u := by simpa using hk
      by_cases hv : e.1 == v
      · have hkv : e.1 = v := by simpa using hv
        have huv : (u == v) = true := by rw [← hku, hkv]; simp
        simp [storePut, storeLookup, hk, huv]
      · simp only [Bool.not_eq_true] at hv
        have huv : (u == v) = false := by rw [← hku]; exact hv
        simp [storeLookup, hv] at h
        simp [storePut, storeLookup, hk, huv, h]
    · simp only [Bool.not_eq_true] at hk
      by_cases hv : e.1 == v
      · simp [storePut, storeLookup, hk, hv]
      · simp only [Bool.not_eq_true] at hv
        simp [storeLookup, hv] at h
        simp [storePut, storeLookup, hk, hv, ih h]

/-- A batch of puts never removes an existing entry of the store. -/
theorem storeLookup_isSome_putAll (prs : List (String × Response)) (st : Store) (v : String)
    (h : (storeLookup st v).isSome = true) :
    (storeLookup (putAll st prs) v).isSome = true := by
  induction prs generalizing st with
  | nil => exact h
  | cons p ps ih =>
    exact ih (storePut st p.1 p.2) (storeLookup_isSome_storePut st p.1 p.2 v h)

/-- After a batch of puts, every written URL has an entry. -/
theorem storeLookup_isSome_putAll_mem (prs : List (String × Response)) (st : Store) (v : String)
    (h : v ∈ prs.map Prod.fst) :
    (storeLookup (putAll st prs) v).isSome = true := by
  induction prs generalizing st with
  | nil => simp at h
  | cons p ps ih =>
    rcases List.mem_cons.mp h with hv | hv
    · subst hv
      exact storeLookup_isSome_putAll ps (storePut st p.1 p.2) p.1
        (by rw [storeLookup_storePut_self]; rfl)
    · exact ih (storePut st p.1 p.2) hv

/-- When the whole batch fetch succeeds, it returns one response per
requested URL, in order. -/
theorem fetchAll_keys (net : Network) (urls : List String)
    (prs : List (String × Response)) (h : fetchAll net urls = Except.ok prs) :
    prs.map Prod.fst = urls := by
  induction urls generalizing prs with
  | nil =>
    simp [fetchAll] at h
    subst h; rfl
  | cons u us ih =>
    cases hn : net u with
    | error e => simp [fetchAll, hn] at h
    | ok r =>
      cases hf : fetchAll net us with
      | error e => simp [fetchAll, hn, hf] at h
      | ok ps =>
        simp [fetchAll, hn, hf] at h
        subst h
        simp [ih ps hf]

/-! ### Storage lemmas -/

/-- Reading back the store just written under a name. -/
theorem getStore_setStore_self (σ : CacheStorage) (n : String) (st : Store) :
    getStore (setStore σ n st) n = some st := by
  induction σ with
  | nil => simp [setStore, getStore]
  | cons e es ih =>
    by_cases hk : e.1 == n
    · simp [setStore, getStore, hk]
    · simp only [Bool.not_eq_true] at hk
      simp [setStore, getStore, hk, ih]

/-- Opening a store that already exists changes nothing. -/
theorem openStore_of_some (σ : CacheStorage) (n : String) (st : Store)
    (h : getStore σ n = some st) : openStore σ n = σ := by
  unfold openStore
  rw [h]

/-- Appending a fresh empty store makes it retrievable. -/
theorem getStore_append_self (σ : CacheStorage) (n : String)
    (h : getStore σ n = none) :
    getStore (σ ++ [(n, ([] : Store))]) n = some [] := by
  induction σ with
  | nil => simp [getStore]
  | cons e es ih =>
    by_cases hk : e.1 == n
    · rw [getStore] at h
      simp [hk] at h
    · simp only [Bool.not_eq_true] at hk
      simp [getStore, hk] at h
      simp [getStore, hk, List.cons_append]
      exact ih h

/-- After `caches.open`, the named store exists and holds what it held
before (or is empty if it did not exist). -/
theorem getStore_openStore (σ : CacheStorage) (n : String) :
    getStore (openStore σ n) n = some ((getStore σ n).getD []) := by
  cases h : getStore σ n with
  | some st => rw [openStore_of_some σ n st h, h]; rfl
  | none =>
    unfold openStore
    rw [h]
    exact getStore_append_self σ n h

/-! ### Activate lemmas -/

/-- Filtering with pointwise-equal predicates gives equal results. -/
theorem filterCongrOn {α : Type} (p q : α → Bool) (l : List α)
    (h : ∀ a, a ∈ l → p a = q a) : l.filter p = l.filter q := by
  induction l with
  | nil => rfl
  | cons a l ih =>
    rw [List.filter_cons, List.filter_cons, h a (List.mem_cons_self a l),
      ih (fun b hb => h b (List.mem_cons_of_mem a hb))]

/-- Folding `caches.delete` over a list of names removes exactly the
entries whose name occurs in that list. -/
theorem foldl_cachesDelete (ks : List String) (σ : CacheStorage) :
    List.foldl cachesDelete σ ks = σ.filter (fun e => !(nameIn e.1 ks)) := by
  induction ks generalizing σ with
  | nil => simp [nameIn]
  | cons k ks ih =>
    rw [List.foldl_cons, ih]
    unfold cachesDelete
    rw [List.filter_filter]
    apply filterCongrOn
    intro e _
    cases hk : (e.1 == k) <;> cases hn : nameIn e.1 ks <;> simp [nameIn, hk, hn]

/-- Boolean membership in a filtered name list. -/
theorem nameIn_filter (k : String) (p : String → Bool) (ks : List String) :
    nameIn k (ks.filter p) = (nameIn k ks && p k) := by
  induction ks with
  | nil => simp [nameIn]
  | cons k2 ks ih =>
    by_cases hk : k = k2
    · subst hk
      cases hp : p k <;> simp [List.filter_cons, nameIn, hp, ih]
    · have hk2 : (k == k2) = false := beq_eq_false_iff_ne.mpr hk
      cases hp : p k2 <;> simp [List.filter_cons, nameIn, hp, ih, hk2]

/-- The name of an entry of the storage occurs among the keys. -/
theorem nameIn_keys_of_mem (σ : CacheStorage) (e : String × Store) (he : e ∈ σ) :
    nameIn e.1 (cachesKeys σ) = true := by
  induction σ with
  | nil => cases he
  | cons f fs ih =>
    rcases List.mem_cons.mp he with h | h
    · subst h; simp [cachesKeys, nameIn]
    · simp only [cachesKeys, List.map_cons, nameIn, Bool.or_eq_true]
      exact Or.inr (ih h)

/-- The activate handler keeps exactly the entries carrying the current
name: it equals a filter of the storage. -/
theorem activateEventWith_eq_filter (name : String) (σ : CacheStorage) :
    activateEventWith name σ = σ.filter (fun e => e.1 == name) := by
  unfold activateEventWith
  rw [foldl_cachesDelete]
  apply filterCongrOn
  intro e he
  rw [nameIn_filter, nameIn_keys_of_mem σ e he]
  cases hn : (e.1 == name) <;> simp [hn]

/-- Filtering for a name that occurs nowhere yields nothing. -/
theorem filter_eq_nil_of_not_mem (name : String) (σ : CacheStorage)
    (h : ¬ name ∈ cachesKeys σ) :
    σ.filter (fun e => e.1 == name) = [] := by
  induction σ with
  | nil => rfl
  | cons f fs ih =>
    simp only [cachesKeys, List.map_cons, List.mem_cons, not_or] at h
    have hf : (f.1 == name) = false := beq_eq_false_iff_ne.mpr (fun hx => h.1 hx.symm)
    rw [List.filter_cons, hf]
    simpa using ih (by simpa [cachesKeys] using h.2)

/-- With distinct store names, filtering for a present name keeps
exactly one entry, the one with that name. -/
theorem cachesKeys_filter_self (name : String) (σ : CacheStorage)
    (hnd : (cachesKeys σ).Nodup) (hm : name ∈ cachesKeys σ) :
    cachesKeys (σ.filter (fun e => e.1 == name)) = [name] := by
  induction σ with
  | nil => cases hm
  | cons f fs ih =>
    have hkeys : cachesKeys (f :: fs) = f.1 :: cachesKeys fs := rfl
    rw [hkeys] at hnd hm
    have hnd2 := List.nodup_cons.mp hnd
    by_cases hf : f.1 == name
    · have hfe : f.1 = name := by simpa using hf
      rw [List.filter_cons, hf]
      simp only [if_true]
      have hz : fs.filter (fun e => e.1 == name) = [] := by
        apply filter_eq_nil_of_not_mem
        rw [← hfe]
        exact hnd2.1
      rw [show cachesKeys (f :: fs.filter (fun e => e.1 == name))
          = f.1 :: cachesKeys (fs.filter (fun e => e.1 == name)) from rfl, hz, hfe]
      rfl
    · simp only [Bool.not_eq_true] at hf
      have hm2 : name ∈ cachesKeys fs := by
        rcases List.mem_cons.mp hm with h | h
        · exact absurd (beq_eq_false_iff_ne.mp hf) (fun hx => hx h.symm)
        · exact h
      rw [List.filter_cons, hf]
      simpa using ih hnd2.2 hm2

/-- Filtering for a name preserves what is stored under that name. -/
theorem getStore_filter_self (σ : CacheStorage) (name : String) :
    getStore (σ.filter (fun e => e.1 == name)) name = getStore σ name := by
  induction σ with
  | nil => rfl
  | cons f fs ih =>
    cases hf : (f.1 == name) <;> simp [List.filter_cons, getStore, hf, ih]

/-- After filtering for one name, every other name is absent. -/
theorem getStore_filter_ne (σ : CacheStorage) (name k : String) (hk : ¬ k = name) :
    getStore (σ.filter (fun e => e.1 == name)) k = none := by
  induction σ with
  | nil => rfl
  | cons f fs ih =>
    cases hf : (f.1 == name)
    · simp [List.filter_cons, hf, ih]
    · have hfe : f.1 = name := by simpa using hf
      have hfk : (f.1 == k) = false := beq_eq_false_iff_ne.mpr (by
        rw [hfe]; exact fun h => hk h.symm)
      simp [List.filter_cons, hf, getStore, hfk, ih]

/-! ### Substring lemmas -/

/-- A list starting at the head of another is contained in it. -/
theorem listHasSub_of_listStarts (q s : List Char) (h : listStarts q s = true) :
    listHasSub q s = true := by
  cases s with
  | nil => exact h
  | cons c rest => simp [listHasSub, h]

/-- Dropping a known start of the pattern preserves containment of the
rest of the pattern. -/
theorem listHasSub_of_starts_append (p q s : List Char)
    (h : listStarts (p ++ q) s = true) : listHasSub q s = true := by
  induction p generalizing s with
  | nil => exact listHasSub_of_listStarts q s h
  | cons c p ih =>
    cases s with
    | nil => simp [listStarts] at h
    | cons d rest =>
      simp only [List.cons_append, listStarts, Bool.and_eq_true] at h
      simp [listHasSub, ih rest h.2]

/-- The site origin/path splits into the scheme and the marker string. -/
theorem sitePre_data_eq : sitePre.data = httpsPre.data ++ needle.data := by decide

/-- A URL matching the deployed site's origin/path contains the marker
substring the fetch handler tests for. -/
theorem urlIncludes_of_urlStartsWithSite (url : String)
    (h : urlStartsWithSite url = true) : urlIncludes url needle = true := by
  unfold urlStartsWithSite at h
  rw [sitePre_data_eq] at h
  exact listHasSub_of_starts_append httpsPre.data needle.data url.data h

/-! ### Fetch-event lemmas -/

/-- On the cache branch, a cache hit is served from the store with no
network call and no change to the storage. -/
theorem fetchEvent_hit (net : Network) (σ : CacheStorage) (st : Store) (url : String)
    (r : Response)
    (hb : urlIncludes url needle = true)
    (hst : getStore σ staticCacheName = some st)
    (hr : storeLookup st url = some r) :
    fetchEvent net σ url = ⟨true, Except.ok r, σ, 0⟩ := by
  unfold fetchEvent
  rw [openStore_of_some σ staticCacheName st hst]
  simp [hb, hst, hr]

/-- On the cache branch, a miss with a successful network fetch stores a
clone under the request URL and returns the network response. -/
theorem fetchEvent_miss (net : Network) (σ : CacheStorage) (url : String) (r : Response)
    (hb : urlIncludes url needle = true)
    (hmiss : storeLookup ((getStore σ staticCacheName).getD []) url = none)
    (hnet : net url = Except.ok r) :
    fetchEvent net σ url = ⟨true, Except.ok r,
      setStore (openStore σ staticCacheName) staticCacheName
        (storePut ((getStore σ staticCacheName).getD []) url r), 1⟩ := by
  have hopen : (getStore (openStore σ staticCacheName) staticCacheName).getD []
      = (getStore σ staticCacheName).getD [] := by
    rw [getStore_openStore]
    rfl
  unfold fetchEvent
  rw [hopen]
  simp [hb, hmiss, hnet, Response.clone]

/-! ### Claim theorems -/

/-- C1: for every manifest, store name and network, if the install
handler's bulk-add completed successfully then every URL of the manifest
has an entry in the cache store named by the current version string, so
each such URL is retrievable from that store without a network fetch. -/
theorem install_caches_manifest (name : String) (manifest : List String) (net : Network)
    (σ : CacheStorage)
    (h : (installEventWith name manifest net σ).addAllResult = Except.ok ()) :
    ∀ url, url ∈ manifest →
      (storeLookup ((getStore (installEventWith name manifest net σ).state name).getD [])
        url).isSome = true := by
  intro url hu
  cases hf : fetchAll net manifest with
  | error e =>
    exfalso
    have h2 : (installEventWith name manifest net σ).addAllResult = Except.error e := by
      unfold installEventWith addAll
      rw [hf]
    rw [h2] at h
    exact Except.noConfusion h
  | ok prs =>
    have h2 : (installEventWith name manifest net σ).state
        = setStore (openStore σ name) name
            (putAll ((getStore (openStore σ name) name).getD []) prs) := by
      unfold installEventWith addAll
      rw [hf]
    rw [h2, getStore_setStore_self]
    show (storeLookup (putAll ((getStore (openStore σ name) name).getD []) prs) url).isSome
      = true
    apply storeLookup_isSome_putAll_mem prs _ url
    rw [fetchAll_keys net manifest prs hf]
    exact hu

/-- Witness for C1: on the two-entry scenario manifest with a healthy
network, the bulk-add succeeds and the root URL is cached. -/
theorem install_caches_manifest_witness :
    (installEventWith v1 manifestW netOk []).addAllResult = Except.ok ()
    ∧ (storeLookup ((getStore (installEventWith v1 manifestW netOk []).state v1).getD [])
        rootUrl).isSome = true :=
  ⟨rfl, install_caches_manifest v1 manifestW netOk [] rfl rootUrl (by decide)⟩

/-- C3 (code bug evidence): on a network where every asset fetch fails,
the promise registered with `evt.waitUntil` still fulfills — because the
install callback does not return the `cache.addAll` promise — while the
bulk-add itself fails and the store stays empty.  The install step
therefore does not fail when the bulk-add does. -/
theorem install_signal_ignores_bulk_add :
    (installEvent netFail []).waitUntil = Except.ok ()
    ∧ (installEvent netFail []).addAllResult = Except.error ()
    ∧ getStore (installEvent netFail []).state staticCacheName = some [] :=
  ⟨rfl, rfl, rfl⟩

/-- C2 counterexample: on a cache storage with no stores at all, the
activate handler leaves no store behind, so it is not true that exactly
one store named by the current version remains for every starting set of
stores. -/
theorem activate_on_empty_leaves_no_store :
    activateEvent ([] : CacheStorage) = []
    ∧ getStore (activateEvent ([] : CacheStorage)) staticCacheName = none :=
  ⟨rfl, rfl⟩

/-- C2 as amended: for every storage whose store names are distinct and
include the current version name, the activate handler deletes exactly
the differently-named stores, leaves the current-version store and its
entries untouched, and afterwards exactly one store — the current one —
remains while every differently-named store is absent. -/
theorem activate_single_generation (σ : CacheStorage)
    (hnd : (cachesKeys σ).Nodup) (hm : staticCacheName ∈ cachesKeys σ) :
    activateEvent σ = σ.filter (fun e => e.1 == staticCacheName)
    ∧ cachesKeys (activateEvent σ) = [staticCacheName]
    ∧ getStore (activateEvent σ) staticCacheName = getStore σ staticCacheName
    ∧ ∀ k, ¬ k = staticCacheName → getStore (activateEvent σ) k = none := by
  have h1 : activateEvent σ = σ.filter (fun e => e.1 == staticCacheName) :=
    activateEventWith_eq_filter staticCacheName σ
  refine ⟨h1, ?_, ?_, ?_⟩
  · rw [h1]
    exact cachesKeys_filter_self staticCacheName σ hnd hm
  · rw [h1]
    exact getStore_filter_self σ staticCacheName
  · intro k hk
    rw [h1]
    exact getStore_filter_ne σ staticCacheName k hk

/-- Witness for the amended C2: a storage holding one stale generation
and the current one. -/
theorem activate_single_generation_witness :
    (cachesKeys cacheOld).Nodup
    ∧ staticCacheName ∈ cachesKeys cacheOld
    ∧ cachesKeys (activateEvent cacheOld) = [staticCacheName]
    ∧ getStore (activateEvent cacheOld) staticCacheName = getStore cacheOld staticCacheName :=
  ⟨by decide, by decide, (activate_single_generation cacheOld (by decide) (by decide)).2.1,
    (activate_single_generation cacheOld (by decide) (by decide)).2.2.1⟩

/-- C8 counterexample: after installing generation `v1` of the scenario,
re-running only the activate handler under the bumped name `v2` does not
leave a store `v2` present — activation only deletes stores and never
creates one. -/
theorem activate_only_does_not_create_new_store :
    getStore (activateEventWith v2 stateV1) v2 = none :=
  rfl

/-- C8 as amended: with manifest `["/", "a.js"]` and an empty storage,
install leaves the `v1` store with exactly 2 entries; bumping the name
to `v2` and re-running only the activate handler leaves store `v1`
absent and store `v2` absent as well; store `v2` is present (and `v1`
absent) only once the install handler for `v2` has run before
activation. -/
theorem scenario_install_then_activate :
    ((getStore stateV1 v1).getD []).length = 2
    ∧ getStore (activateEventWith v2 stateV1) v1 = none
    ∧ getStore (activateEventWith v2 stateV1) v2 = none
    ∧ getStore (activateEventWith v2 (installEventWith v2 manifestW netOk stateV1).state) v1
        = none
    ∧ (getStore (activateEventWith v2 (installEventWith v2 manifestW netOk stateV1).state)
        v2).isSome = true :=
  ⟨rfl, rfl, rfl, rfl, rfl⟩

/-- C4: a request whose URL matches the deployed site's origin/path and
already has an entry in the current cache store is answered with the
cached response and no network fetch is performed. -/
theorem cached_request_served_without_network (net : Network) (σ : CacheStorage)
    (st : Store) (url : String) (r : Response)
    (hp : urlStartsWithSite url = true)
    (hst : getStore σ staticCacheName = some st)
    (hr : storeLookup st url = some r) :
    (fetchEvent net σ url).response = Except.ok r
    ∧ (fetchEvent net σ url).networkCalls = 0 := by
  rw [fetchEvent_hit net σ st url r (urlIncludes_of_urlStartsWithSite url hp) hst hr]
  exact ⟨rfl, rfl⟩

/-- Witness for C4: the site's index page, already cached, is served
even when the network would fail every request. -/
theorem cached_request_served_without_network_witness :
    urlStartsWithSite urlHome = true
    ∧ getStore cacheW staticCacheName = some [(urlHome, r0)]
    ∧ storeLookup [(urlHome, r0)] urlHome = some r0
    ∧ (fetchEvent netFail cacheW urlHome).response = Except.ok r0
    ∧ (fetchEvent netFail cacheW urlHome).networkCalls = 0 := by
  obtain ⟨h1, h2⟩ := cached_request_served_without_network netFail cacheW
    [(urlHome, r0)] urlHome r0 (by decide) rfl rfl
  exact ⟨by decide, rfl, rfl, h1, h2⟩

/-- C5: a matching request whose URL is missing from the cache is
answered from the network and a clone is stored, so a second fetch event
for the identical URL — under any network whatsoever — is answered from
the cache with no network call. -/
theorem store_on_miss_round_trip (net net2 : Network) (σ : CacheStorage)
    (url : String) (r : Response)
    (hp : urlStartsWithSite url = true)
    (hmiss : storeLookup ((getStore σ staticCacheName).getD []) url = none)
    (hnet : net url = Except.ok r) :
    (fetchEvent net σ url).response = Except.ok r
    ∧ (fetchEvent net2 (fetchEvent net σ url).state url).response = Except.ok r
    ∧ (fetchEvent net2 (fetchEvent net σ url).state url).networkCalls = 0 := by
  have hb := urlIncludes_of_urlStartsWithSite url hp
  rw [fetchEvent_miss net σ url r hb hmiss hnet]
  have hst2 := getStore_setStore_self (openStore σ staticCacheName) staticCacheName
    (storePut ((getStore σ staticCacheName).getD []) url r)
  have hr2 := storeLookup_storePut_self ((getStore σ staticCacheName).getD []) url r
  rw [show (FetchOutcome.mk true (Except.ok r)
      (setStore (openStore σ staticCacheName) staticCacheName
        (storePut ((getStore σ staticCacheName).getD []) url r)) 1).state
    = setStore (openStore σ staticCacheName) staticCacheName
        (storePut ((getStore σ staticCacheName).getD []) url r) from rfl]
  rw [fetchEvent_hit net2 _ _ url r hb hst2 hr2]
  exact ⟨rfl, rfl, rfl⟩

/-- Witness for C5: a first fetch of the index page on an empty storage
populates the cache; the second fetch succeeds even against a network
that fails every request. -/
theorem store_on_miss_round_trip_witness :
    urlStartsWithSite urlHome = true
    ∧ storeLookup ((getStore ([] : CacheStorage) staticCacheName).getD []) urlHome = none
    ∧ netOk urlHome = Except.ok r0
    ∧ (fetchEvent netOk [] urlHome).response = Except.ok r0
    ∧ (fetchEvent netFail (fetchEvent netOk [] urlHome).state urlHome).response = Except.ok r0
    ∧ (fetchEvent netFail (fetchEvent netOk [] urlHome).state urlHome).networkCalls = 0 := by
  obtain ⟨h1, h2, h3⟩ := store_on_miss_round_trip netOk netFail [] urlHome r0
    (by decide) rfl rfl
  exact ⟨by decide, rfl, rfl, h1, h2, h3⟩

/-- C6 counterexample: a cross-origin URL that merely embeds the marker
string in a query parameter does not match the site's origin/path, yet
handling it on an empty storage changes the cache state — it is routed
through the cache path, not passed straight to the network. -/
theorem substring_match_defeats_origin_check :
    urlStartsWithSite evilUrl = false
    ∧ ¬ (fetchEvent netOk [] evilUrl).state = ([] : CacheStorage) := by
  exact ⟨by decide, by decide⟩

/-- C6 as amended: for every request whose URL does not contain the
marker substring `needle`, the handler responds with a direct network
fetch (one call) and the cache storage is left unchanged. -/
theorem non_matching_request_passes_through (net : Network) (σ : CacheStorage)
    (url : String) (h : urlIncludes url needle = false) :
    (fetchEvent net σ url).response = net url
    ∧ (fetchEvent net σ url).state = σ
    ∧ (fetchEvent net σ url).networkCalls = 1 := by
  unfold fetchEvent
  cases hn : net url <;> simp [h, hn]

/-- Witness for the amended C6: a cross-origin font URL passes straight
through to the network. -/
theorem non_matching_request_passes_through_witness :
    urlIncludes otherUrl needle = false
    ∧ (fetchEvent netOk [] otherUrl).response = netOk otherUrl
    ∧ (fetchEvent netOk [] otherUrl).state = []
    ∧ (fetchEvent netOk [] otherUrl).networkCalls = 1 := by
  obtain ⟨h1, h2, h3⟩ := non_matching_request_passes_through netOk [] otherUrl (by decide)
  exact ⟨by decide, h1, h2, h3⟩

/-- C7: whenever the handler performs a network fetch for a request and
that fetch fails, the failure propagates to the page as a failed
request: exactly one fetch is attempted (no retry) and no substitute
content is served. -/
theorem network_failure_propagates (net : Network) (σ : CacheStorage) (url : String)
    (hfail : net url = Except.error ())
    (hused : ¬ (fetchEvent net σ url).networkCalls = 0) :
    (fetchEvent net σ url).response = Except.error ()
    ∧ (fetchEvent net σ url).networkCalls = 1 := by
  by_cases hb : urlIncludes url needle = true
  · cases hm : storeLookup
        ((getStore (openStore σ staticCacheName) staticCacheName).getD []) url with
    | some r =>
      exfalso
      apply hused
      unfold fetchEvent
      simp [hb, hm]
    | none =>
      constructor <;> (unfold fetchEvent; simp [hb, hm, hfail])
  · have hb2 : urlIncludes url needle = false := by
      cases hx : urlIncludes url needle
      · rfl
      · exact absurd hx hb
    constructor <;> (unfold fetchEvent; simp [hb2, hfail])

/-- Witness for C7: a cross-origin request on a failing network comes
back as a failed request after exactly one attempt. -/
theorem network_failure_propagates_witness :
    netFail otherUrl2 = Except.error ()
    ∧ ¬ (fetchEvent netFail [] otherUrl2).networkCalls = 0
    ∧ (fetchEvent netFail [] otherUrl2).response = Except.error ()
    ∧ (fetchEvent netFail [] otherUrl2).networkCalls = 1 := by
  obtain ⟨h1, h2⟩ := network_failure_propagates netFail [] otherUrl2 rfl (by decide)
  exact ⟨rfl, by decide, h1, h2⟩

/-- C9: the cache-serving branch is taken exactly when the request URL
contains the marker substring anywhere in it; in particular the
cross-origin URL embedding it in a query parameter takes the cache
branch even though it does not match the site's origin/path, so the
dispatch test is substring containment rather than a prefix check. -/
theorem dispatch_is_substring_containment (net : Network) (σ : CacheStorage) (url : String) :
    (fetchEvent net σ url).cacheBranch = urlIncludes url needle
    ∧ (fetchEvent net σ evilUrl).cacheBranch = true
    ∧ urlStartsWithSite evilUrl = false := by
  have hgen : ∀ u : String, (fetchEvent net σ u).cacheBranch = urlIncludes u needle := by
    intro u
    by_cases hb : urlIncludes u needle = true
    · cases hm : storeLookup
          ((getStore (openStore σ staticCacheName) staticCacheName).getD []) u with
      | some r => unfold fetchEvent; simp [hb, hm]
      | none => cases hn : net u <;> (unfold fetchEvent; simp [hb, hm, hn])
    · have hb2 : urlIncludes u needle = false := by
        cases hx : urlIncludes u needle
        · rfl
        · exact absurd hx hb
      cases hn : net u <;> (unfold fetchEvent; simp [hb2, hn])
  refine ⟨hgen url, ?_, by decide⟩
  rw [hgen evilUrl]
  decide

/-- C10: on the cache branch, a request whose URL already has a cached
entry leaves the cache storage completely unchanged — a write happens
only on a miss. -/
theorem cache_hit_leaves_storage_unchanged (net : Network) (σ : CacheStorage)
    (st : Store) (url : String) (r : Response)
    (hb : urlIncludes url needle = true)
    (hst : getStore σ staticCacheName = some st)
    (hr : storeLookup st url = some r) :
    (fetchEvent net σ url).state = σ := by
  rw [fetchEvent_hit net σ st url r hb hst hr]

/-- Witness for C10: serving the cached index page leaves the storage
exactly as it was. -/
theorem cache_hit_leaves_storage_unchanged_witness :
    urlIncludes urlHome needle = true
    ∧ getStore cacheW staticCacheName = some [(urlHome, r0)]
    ∧ storeLookup [(urlHome, r0)] urlHome = some r0
    ∧ (fetchEvent netFail cacheW urlHome).state = cacheW :=
  ⟨by decide, rfl, rfl,
    cache_hit_leaves_storage_unchanged netFail cacheW [(urlHome, r0)] urlHome r0
      (by decide) rfl rfl⟩
